import Mathlib

/-!
# Verification of the Latin Square Assigner

A shallow embedding of `latin_square_assigner.py`: the cyclic Latin-square
builder `latin_square` and the team assigner `assign_teams`, together with
proofs of the balance, completeness and error-handling properties stated in
the specification.

Modelling conventions:
* Python `int` is `Int`; Python `%` and `//` on a positive divisor agree with
  `Int.emod` and `Int.ediv`, and `a % 0` raises `ZeroDivisionError`, which the
  embedding returns explicitly.
* The Python `dict` is an insertion-ordered association list; `dict[k] = v`
  is `dictSet`, which overwrites in place or appends.
* `random.shuffle` is a parameter: the stateful version `assign_teams_r`
  threads an abstract random-source state through a `shuffle` function, and
  the pure version `assign_teams` takes the realized permutation map.
-/

namespace LatinSquareAssigner

/-- The Python exceptions that `assign_teams` can raise: `ZeroDivisionError`
from `num_teams % 0`, and `ValueError` (the spec's `InvalidConfiguration`)
with its message. -/
inductive PyError where
  | zeroDivisionError : PyError
  | valueError : String → PyError
deriving DecidableEq

/-- Source `latin_square(n)`: the list of rows
`[[(i + j) % n for j in range(n)] for i in range(n)]`. -/
def latin_square (n : Nat) : List (List Nat) :=
  (List.range n).map (fun i => (List.range n).map (fun j => (i + j) % n))

/-- Decimal digits of `n` as characters, most significant first (`['0']` for
`0`): the fuel-free form of core's `Nat.toDigitsCore`, used to reason about
the rendered team names. -/
def decChars (n : Nat) : List Char :=
  if h : n / 10 = 0 then [Nat.digitChar (n % 10)]
  else decChars (n / 10) ++ [Nat.digitChar (n % 10)]
termination_by n
decreasing_by
  exact Nat.div_lt_self
    (Nat.pos_of_ne_zero (fun h0 => h (by simp [h0]))) (by norm_num)

/-- The display name built at line 63 of the source, `"Team " + str(team_no + 1)`,
where `team_no` is the team's original (pre-shuffle) 0-based index. -/
def teamName (team_no : Nat) : String := "Team " ++ toString (team_no + 1)

/-- Python dict assignment `d[key] = v` on an insertion-ordered association
list: overwrite the value in place if the key is present, else append. -/
def dictSet (d : List (String × List String)) (key : String) (v : List String) :
    List (String × List String) :=
  if key ∈ d.map Prod.fst then
    d.map (fun p => if p.1 = key then (p.1, v) else p)
  else d ++ [(key, v)]

/-- The nested assignment loop of `assign_teams` (source lines 60–64): for
each block and each enumerated square row, insert
`"Team " + str(team_indices[block * k + row_idx] + 1) ↦ [conditions[col] for col in row]`
into the dict, in loop order. -/
def assignLoop (square : List (List Nat)) (conditions : List String)
    (team_indices : List Nat) (teams_per_square : Nat) :
    List (String × List String) :=
  ((List.range teams_per_square).flatMap (fun block =>
    square.enum.map (fun p =>
      (teamName (team_indices.getD (block * conditions.length + p.1) 0),
       p.2.map (fun col => conditions.getD col ""))))).foldl
    (fun d q => dictSet d q.1 q.2) []

/-- The `ValueError` message raised at source lines 50–52. -/
def invalidConfigMsg (num_teams : Int) (k : Nat) : String :=
  "Number of teams (" ++ toString num_teams ++
    ") must be a multiple of the number of conditions (" ++ toString k ++ ")."

/-- Source `assign_teams(num_teams, conditions)` with the random source made
explicit: `shuffle` consumes the state `g` and the list to permute and
returns the shuffled list with the new state. Mirrors the source's statement
order: divisibility check first (raising before any entropy is consumed),
then square construction, shuffle, and the assignment loop. -/
def assign_teams_r {σ : Type} (shuffle : σ → List Nat → List Nat × σ) (g : σ)
    (num_teams : Int) (conditions : List String) :
    Except PyError (List (String × List String)) × σ :=
  let k := conditions.length
  if k = 0 then (Except.error PyError.zeroDivisionError, g)
  else if num_teams % (k : Int) ≠ 0 then
    (Except.error (PyError.valueError (invalidConfigMsg num_teams k)), g)
  else
    let square := latin_square k
    let teams_per_square := num_teams / (k : Int)
    let sres := shuffle g (List.range num_teams.toNat)
    (Except.ok (assignLoop square conditions sres.1 teams_per_square.toNat),
      sres.2)

/-- Pure form of `assign_teams` with the realized shuffle as a function: `shuffle l`
is the permuted copy that `random.shuffle` leaves in `l`. -/
def assign_teams (shuffle : List Nat → List Nat) (num_teams : Int)
    (conditions : List String) : Except PyError (List (String × List String)) :=
  (assign_teams_r (fun (_ : Unit) l => (shuffle l, ())) () num_teams conditions).1

/-- Column `j` of a square, read through the row lists. -/
def column (t : List (List Nat)) (j : Nat) : List Nat :=
  t.map (fun row => row.getD j 0)

/-- The number of teams in assignment `a` whose condition sequence has label
`c` at position `p`. -/
def countAt (a : List (String × List String)) (p : Nat) (c : String) : Nat :=
  a.countP (fun q => q.2.getD p "" == c)

/-- Normal form of the pair list built by `assignLoop` on the square
`latin_square conditions.length`, proved equal to it below: block `b`, row `r`
contributes the team at shuffled position `b * k + r` with row `r`'s condition
sequence. -/
def assignPairs (conditions : List String) (team_indices : List Nat) (B : Nat) :
    List (String × List String) :=
  (List.range B).flatMap (fun b =>
    (List.range conditions.length).map (fun r =>
      (teamName (team_indices.getD (b * conditions.length + r) 0),
       ((List.range conditions.length).map
         (fun j => (r + j) % conditions.length)).map
         (fun col => conditions.getD col ""))))

/-! ## Decimal rendering: `Nat.repr` through `decChars` -/

theorem toDigitsCore_eq_decChars (fuel n : Nat) (ds : List Char) (h : n < fuel) :
    Nat.toDigitsCore 10 fuel n ds = decChars n ++ ds := by
  induction fuel generalizing n ds with
  | zero => omega
  | succ f ih =>
    rw [Nat.toDigitsCore, decChars]
    by_cases h10 : n / 10 = 0
    · simp only [h10, if_pos, dif_pos]
      simp
    · simp only [h10, if_neg, dif_neg, not_false_iff]
      rw [ih (n / 10) _ (by omega)]
      simp

theorem repr_eq_decChars (n : Nat) : Nat.repr n = (decChars n).asString := by
  rw [Nat.repr, Nat.toDigits, toDigitsCore_eq_decChars (n + 1) n [] (by omega)]
  simp

theorem decChars_def (n : Nat) :
    decChars n = if n / 10 = 0 then [Nat.digitChar (n % 10)]
      else decChars (n / 10) ++ [Nat.digitChar (n % 10)] := by
  rw [decChars]
  by_cases h : n / 10 = 0 <;> simp [h]

theorem decChars_ne_nil (n : Nat) : decChars n ≠ [] := by
  rw [decChars_def]
  split <;> simp

theorem digitChar_inj_lt :
    ∀ a, a < 10 → ∀ b, b < 10 → Nat.digitChar a = Nat.digitChar b → a = b := by
  decide

theorem decChars_inj : ∀ m n : Nat, decChars m = decChars n → m = n := by
  intro m
  induction m using Nat.strong_induction_on with
  | _ m ih =>
    intro n h
    rw [decChars_def m, decChars_def n] at h
    by_cases hm : m / 10 = 0 <;> by_cases hn : n / 10 = 0
    · rw [if_pos hm, if_pos hn] at h
      simp only [List.cons.injEq, and_true] at h
      have := digitChar_inj_lt (m % 10) (by omega) (n % 10) (by omega) h
      omega
    · rw [if_pos hm, if_neg hn] at h
      have hlen := congrArg List.length h
      simp only [List.length_cons, List.length_append, List.length_nil,
        List.length_singleton] at hlen
      exact absurd (List.length_eq_zero.mp (by omega)) (decChars_ne_nil (n / 10))
    · rw [if_neg hm, if_pos hn] at h
      have hlen := congrArg List.length h
      simp only [List.length_cons, List.length_append, List.length_nil,
        List.length_singleton] at hlen
      exact absurd (List.length_eq_zero.mp (by omega)) (decChars_ne_nil (m / 10))
    · rw [if_neg hm, if_neg hn] at h
      obtain ⟨h1, h2⟩ := List.append_inj' h (by simp)
      have hdiv : m / 10 = n / 10 :=
        ih (m / 10) (Nat.div_lt_self (by omega) (by omega)) (n / 10) h1
      simp only [List.cons.injEq, and_true] at h2
      have hmod := digitChar_inj_lt (m % 10) (by omega) (n % 10) (by omega) h2
      omega

theorem repr_injective : Function.Injective Nat.repr := by
  intro m n h
  rw [repr_eq_decChars, repr_eq_decChars] at h
  exact decChars_inj m n (List.asString_inj.mp h)

theorem teamName_injective : Function.Injective teamName := by
  intro a b h
  have hd := congrArg String.data h
  simp only [teamName, String.data_append] at hd
  have := List.append_cancel_left hd
  have hrepr : Nat.repr (a + 1) = Nat.repr (b + 1) := by
    have h1 : (Nat.repr (a + 1)).data = (Nat.repr (b + 1)).data := this
    rw [repr_eq_decChars, repr_eq_decChars] at h1 ⊢
    exact congrArg List.asString (by simpa [List.asString] using h1)
  have := repr_injective hrepr
  omega

/-! ## List helpers -/

theorem getD_map_lt {α β : Type} (g : α → β) {l : List α} {p : Nat}
    (h : p < l.length) (d : β) (d0 : α) :
    (l.map g).getD p d = g (l.getD p d0) := by
  simp only [List.getD_eq_getElem?_getD, List.getElem?_map,
    List.getElem?_eq_getElem h]
  simp

theorem map_getD_range_take {α : Type} (l : List α) (d : α) :
    ∀ n, n ≤ l.length → (List.range n).map (fun i => l.getD i d) = l.take n := by
  intro n
  induction n with
  | zero => simp
  | succ m ih =>
    intro h
    rw [List.range_succ, List.map_append, ih (by omega), List.take_succ]
    simp [List.getElem?_eq_getElem (show m < l.length by omega)]

theorem map_getD_range_length {α : Type} (l : List α) (d : α) :
    (List.range l.length).map (fun i => l.getD i d) = l := by
  rw [map_getD_range_take l d l.length (le_refl _), List.take_length]

theorem getD_drop {α : Type} (l : List α) (d : α) (i j : Nat) :
    (l.drop i).getD j d = l.getD (i + j) d := by
  simp [List.getD_eq_getElem?_getD, List.getElem?_drop]

theorem flatMap_getD_chunks {α : Type} (k : Nat) :
    ∀ (B : Nat) (l : List α) (d : α), l.length = B * k →
      (List.range B).flatMap
        (fun b => (List.range k).map (fun r => l.getD (b * k + r) d)) = l := by
  intro B
  induction B with
  | zero =>
    intro l d h
    simp only [Nat.zero_mul] at h
    simp [List.length_eq_zero.mp h]
  | succ m ih =>
    intro l d h
    rw [List.range_succ_eq_map, List.flatMap_cons, List.flatMap_map]
    have hk_le : k ≤ l.length := by
      rw [h, Nat.succ_mul]
      exact Nat.le_add_left k (m * k)
    have h0 : (List.range k).map (fun r => l.getD (0 * k + r) d) = l.take k := by
      rw [← map_getD_range_take l d k hk_le]
      apply List.map_congr_left
      intro r _
      simp
    have hfun : (fun b => (List.range k).map
          fun r => l.getD (Nat.succ b * k + r) d)
        = (fun b => (List.range k).map
          fun r => (l.drop k).getD (b * k + r) d) := by
      funext b
      apply List.map_congr_left
      intro r _
      have hidx : Nat.succ b * k + r = k + (b * k + r) := by
        rw [Nat.succ_mul]
        ring
      rw [hidx]
      exact (getD_drop l d k (b * k + r)).symm
    have hlen : (l.drop k).length = m * k := by
      rw [List.length_drop, h, Nat.succ_mul]
      exact Nat.add_sub_cancel _ _
    calc (List.range k).map (fun r => l.getD (0 * k + r) d) ++
          (List.range m).flatMap
            (fun b => (List.range k).map fun r => l.getD (Nat.succ b * k + r) d)
        = l.take k ++ l.drop k := by rw [h0, hfun, ih _ _ hlen]
      _ = l := List.take_append_drop k l

theorem count_flatMap_const {β : Type} [DecidableEq β] (B : Nat) (L : List β)
    (c : β) : ((List.range B).flatMap (fun _ => L)).count c = B * L.count c := by
  induction B with
  | zero => simp
  | succ n ih =>
    rw [List.range_succ, List.flatMap_append, List.count_append, ih]
    simp [Nat.succ_mul]

/-! ## The cyclic square: rows and columns -/

theorem map_add_mod_perm_range (k i : Nat) :
    ((List.range k).map (fun j => (i + j) % k)).Perm (List.range k) := by
  rcases Nat.eq_zero_or_pos k with hk | hk
  · simp [hk]
  · apply List.Subperm.perm_of_length_le
    · apply List.subperm_of_subset
      · refine List.Nodup.map_on ?_ (List.nodup_range k)
        intro x hx y hy hxy
        simp only [List.mem_range] at hx hy
        have hmx : Nat.ModEq k x y := Nat.ModEq.add_left_cancel' i hxy
        rw [Nat.ModEq] at hmx
        rwa [Nat.mod_eq_of_lt hx, Nat.mod_eq_of_lt hy] at hmx
      · intro a ha
        simp only [List.mem_map, List.mem_range] at ha
        obtain ⟨j, _, rfl⟩ := ha
        simp only [List.mem_range]
        exact Nat.mod_lt _ hk
    · simp

theorem latin_square_length (k : Nat) : (latin_square k).length = k := by
  simp [latin_square]

theorem latin_square_row (k i : Nat) (h : i < k) :
    (latin_square k).getD i [] = (List.range k).map (fun j => (i + j) % k) := by
  simp [latin_square, List.getD_eq_getElem?_getD, List.getElem?_range h]

theorem latin_square_column (k j : Nat) (hj : j < k) :
    column (latin_square k) j = (List.range k).map (fun i => (i + j) % k) := by
  simp only [column, latin_square, List.map_map]
  apply List.map_congr_left
  intro i _
  simp [Function.comp, List.getD_eq_getElem?_getD, List.getElem?_range hj]

/-! ## Dict building -/

theorem dictSet_of_not_mem {d : List (String × List String)} {key : String}
    (v : List String) (h : key ∉ d.map Prod.fst) :
    dictSet d key v = d ++ [(key, v)] := by
  simp [dictSet, h]

theorem foldl_dictSet_eq_append :
    ∀ (pairs d : List (String × List String)),
      (d.map Prod.fst ++ pairs.map Prod.fst).Nodup →
      pairs.foldl (fun acc q => dictSet acc q.1 q.2) d = d ++ pairs := by
  intro pairs
  induction pairs with
  | nil =>
    intro d _
    simp
  | cons q rest ih =>
    intro d h
    rw [List.foldl_cons]
    have hq : q.1 ∉ d.map Prod.fst := by
      rw [List.nodup_append] at h
      intro hmem
      exact h.2.2 hmem (by simp)
    rw [dictSet_of_not_mem q.2 hq]
    have h' : ((d ++ [q]).map Prod.fst ++ rest.map Prod.fst).Nodup := by
      simpa [List.map_append, List.append_assoc] using h
    have := ih (d ++ [q]) h'
    simpa [List.append_assoc] using this

/-! ## Normal form of `assign_teams` on valid inputs -/

theorem enum_map_range {β : Type} (k : Nat) (f : Nat → β) :
    ((List.range k).map f).enum = (List.range k).map (fun i => (i, f i)) := by
  rw [List.enum_eq_zip_range, List.length_map, List.length_range]
  calc (List.range k).zip ((List.range k).map f)
      = ((List.range k).map id).zip ((List.range k).map f) := by
        rw [List.map_id]
    _ = (List.range k).map (fun i => (id i, f i)) := List.zip_map' id f _
    _ = (List.range k).map (fun i => (i, f i)) := rfl

theorem assignLoop_eq_assignPairs (conditions : List String) (ti : List Nat)
    (B : Nat) (hnd : ((assignPairs conditions ti B).map Prod.fst).Nodup) :
    assignLoop (latin_square conditions.length) conditions ti B =
      assignPairs conditions ti B := by
  rw [assignLoop]
  have henum : (latin_square conditions.length).enum
      = (List.range conditions.length).map
        (fun i => (i, (List.range conditions.length).map
          (fun j => (i + j) % conditions.length))) := by
    rw [latin_square]
    exact enum_map_range _ _
  rw [henum]
  simp only [List.map_map]
  have hflat : (List.range B).flatMap (fun block =>
      (List.range conditions.length).map
        ((fun p : Nat × List Nat =>
          (teamName (ti.getD (block * conditions.length + p.1) 0),
           p.2.map fun col => conditions.getD col "")) ∘
          (fun i => (i, (List.range conditions.length).map
            fun j => (i + j) % conditions.length))))
      = assignPairs conditions ti B := rfl
  rw [hflat]
  exact foldl_dictSet_eq_append _ [] (by simpa using hnd)

theorem assignPairs_keys (c : List String) (ti : List Nat) (B : Nat)
    (hlen : ti.length = B * c.length) :
    (assignPairs c ti B).map Prod.fst = ti.map teamName := by
  calc (assignPairs c ti B).map Prod.fst
      = (List.range B).flatMap (fun b => (List.range c.length).map
          (fun r => teamName (ti.getD (b * c.length + r) 0))) := by
        rw [assignPairs, List.map_flatMap]
        simp only [List.map_map]
        rfl
    _ = ((List.range B).flatMap (fun b => (List.range c.length).map
          (fun r => ti.getD (b * c.length + r) 0))).map teamName := by
        rw [List.map_flatMap]
        simp only [List.map_map]
        rfl
    _ = ti.map teamName := by
        rw [flatMap_getD_chunks c.length B ti 0 hlen]

theorem assignPairs_values (c : List String) (ti : List Nat) (B : Nat) :
    (assignPairs c ti B).map Prod.snd = (List.range B).flatMap
      (fun _ => (List.range c.length).map (fun r =>
        ((List.range c.length).map (fun j => (r + j) % c.length)).map
          (fun col => c.getD col ""))) := by
  rw [assignPairs, List.map_flatMap]
  simp only [List.map_map]
  rfl

theorem keys_nodup_of_perm (c : List String) (ti : List Nat) (nn B : Nat)
    (hlen : ti.length = B * c.length) (hperm : ti.Perm (List.range nn)) :
    ((assignPairs c ti B).map Prod.fst).Nodup := by
  rw [assignPairs_keys c ti B hlen]
  exact ((hperm.nodup_iff).mpr (List.nodup_range nn)).map teamName_injective

theorem assign_teams_ok (sh : List Nat → List Nat) (c : List String) (nn : Nat)
    (hk : c.length ≠ 0) (hdvd : nn % c.length = 0)
    (hnd : ((assignPairs c (sh (List.range nn)) (nn / c.length)).map
      Prod.fst).Nodup) :
    assign_teams sh (nn : Int) c =
      Except.ok (assignPairs c (sh (List.range nn)) (nn / c.length)) := by
  have hmod : ((nn : Int) % (c.length : Int)) = 0 := by
    rw [← Int.ofNat_emod, hdvd]
    rfl
  have hdiv : ((nn : Int) / (c.length : Int)).toNat = nn / c.length := by
    rw [← Int.ofNat_ediv, Int.toNat_ofNat]
  simp only [assign_teams, assign_teams_r, if_neg hk,
    if_neg (not_not_intro hmod), hdiv, Int.toNat_ofNat]
  exact congrArg Except.ok
    (assignLoop_eq_assignPairs c (sh (List.range nn)) (nn / c.length) hnd)

theorem assign_teams_ok_of_perm (sh : List Nat → List Nat) (c : List String)
    (nn : Nat) (hk : c.length ≠ 0) (hdvd : nn % c.length = 0)
    (hsh : (sh (List.range nn)).Perm (List.range nn)) :
    assign_teams sh (nn : Int) c =
      Except.ok (assignPairs c (sh (List.range nn)) (nn / c.length)) := by
  have hlen : (sh (List.range nn)).length = (nn / c.length) * c.length := by
    rw [hsh.length_eq, List.length_range,
      Nat.div_mul_cancel (Nat.dvd_of_mod_eq_zero hdvd)]
  exact assign_teams_ok sh c nn hk hdvd
    (keys_nodup_of_perm c _ nn _ hlen hsh)

/-! ## Claim theorems -/

/-- C2: for every `k ≥ 1`, `latin_square k` is a `k × k` table whose cell
`(i, j)` is `(i + j) % k`, and every row and every column is a permutation of
the integers `[0, k)`. -/
theorem latin_square_valid (k : Nat) (hk : 1 ≤ k) :
    (latin_square k).length = k ∧
    (∀ i, i < k → ((latin_square k).getD i []).length = k) ∧
    (∀ i j, i < k → j < k →
      ((latin_square k).getD i []).getD j 0 = (i + j) % k) ∧
    (∀ i, i < k → ((latin_square k).getD i []).Perm (List.range k)) ∧
    (∀ j, j < k → (column (latin_square k) j).Perm (List.range k)) := by
  refine ⟨latin_square_length k, ?_, ?_, ?_, ?_⟩
  · intro i hi
    rw [latin_square_row k i hi]
    simp
  · intro i j hi hj
    rw [latin_square_row k i hi]
    simp [List.getD_eq_getElem?_getD, List.getElem?_range hj]
  · intro i hi
    rw [latin_square_row k i hi]
    exact map_add_mod_perm_range k i
  · intro j hj
    rw [latin_square_column k j hj]
    have hcomm : (List.range k).map (fun i => (i + j) % k)
        = (List.range k).map (fun i => (j + i) % k) := by
      apply List.map_congr_left
      intro i _
      rw [Nat.add_comm]
    rw [hcomm]
    exact map_add_mod_perm_range k j

/-- Witness for C2 at `k = 3`. -/
theorem latin_square_valid_witness :
    (latin_square 3).length = 3 ∧
    (∀ i, i < 3 → ((latin_square 3).getD i []).length = 3) ∧
    (∀ i j, i < 3 → j < 3 →
      ((latin_square 3).getD i []).getD j 0 = (i + j) % 3) ∧
    (∀ i, i < 3 → ((latin_square 3).getD i []).Perm (List.range 3)) ∧
    (∀ j, j < 3 → (column (latin_square 3) j).Perm (List.range 3)) :=
  latin_square_valid 3 (by decide)

/-- C3: with `k ≥ 1` conditions, `assign_teams` fails exactly when
`num_teams % k ≠ 0`, and the failure is a `ValueError` whose message states
both `num_teams` and `k`; when `num_teams % k = 0` it returns an
assignment. -/
theorem assign_teams_error_iff (sh : List Nat → List Nat) (num_teams : Int)
    (conds : List String) (hk : 1 ≤ conds.length) :
    (num_teams % (conds.length : Int) ≠ 0 →
      assign_teams sh num_teams conds = Except.error (PyError.valueError
        ("Number of teams (" ++ toString num_teams ++
         ") must be a multiple of the number of conditions (" ++
         toString conds.length ++ ")."))) ∧
    (num_teams % (conds.length : Int) = 0 →
      ∃ a, assign_teams sh num_teams conds = Except.ok a) := by
  have hk0 : conds.length ≠ 0 := by omega
  constructor
  · intro hmod
    simp only [assign_teams, assign_teams_r, if_neg hk0, if_pos hmod]
    rfl
  · intro hmod
    refine ⟨assignLoop (latin_square conds.length) conds
      (sh (List.range num_teams.toNat))
      (num_teams / (conds.length : Int)).toNat, ?_⟩
    simp only [assign_teams, assign_teams_r, if_neg hk0,
      if_neg (not_not_intro hmod)]

/-- Witness for C3 at `num_teams = 5`, `conditions = ["A", "B", "C"]`. -/
theorem assign_teams_error_iff_witness :
    ((5 : Int) % (((["A", "B", "C"] : List String).length : Nat) : Int) ≠ 0 →
      assign_teams id 5 ["A", "B", "C"] = Except.error (PyError.valueError
        ("Number of teams (" ++ toString (5 : Int) ++
         ") must be a multiple of the number of conditions (" ++
         toString (["A", "B", "C"] : List String).length ++ ")."))) ∧
    ((5 : Int) % (((["A", "B", "C"] : List String).length : Nat) : Int) = 0 →
      ∃ a, assign_teams id 5 ["A", "B", "C"] = Except.ok a) :=
  assign_teams_error_iff id 5 ["A", "B", "C"] (by decide)

/-- C6: the assignment is a pure function of the random-source state and the
inputs, so two invocations started from the same seeded state with identical
inputs return identical results (assignment and final state). -/
theorem assign_teams_deterministic {σ : Type}
    (shuffle : σ → List Nat → List Nat × σ) (seedState : Int → σ)
    (seed : Int) (num_teams : Int) (conds : List String) (g₁ g₂ : σ)
    (h₁ : g₁ = seedState seed) (h₂ : g₂ = seedState seed) :
    assign_teams_r shuffle g₁ num_teams conds =
      assign_teams_r shuffle g₂ num_teams conds := by
  rw [h₁, h₂]

/-- Witness for C6 with a concrete random source. -/
theorem assign_teams_deterministic_witness :
    assign_teams_r (fun (g : Nat) l => (l.reverse, g + 1)) 0 3 ["A"] =
      assign_teams_r (fun (g : Nat) l => (l.reverse, g + 1)) 0 3 ["A"] :=
  assign_teams_deterministic (fun (g : Nat) l => (l.reverse, g + 1))
    (fun _ => 0) 7 3 ["A"] 0 0 rfl rfl

/-- C8: all-or-nothing — whenever `assign_teams` fails, the whole result is
exactly the error with the random-source state unchanged: the check precedes
the shuffle, so no entropy is consumed on the error path. -/
theorem assign_teams_error_state_unchanged {σ : Type}
    (shuffle : σ → List Nat → List Nat × σ) (g : σ) (num_teams : Int)
    (conds : List String) (e : PyError)
    (h : (assign_teams_r shuffle g num_teams conds).1 = Except.error e) :
    assign_teams_r shuffle g num_teams conds = (Except.error e, g) := by
  simp only [assign_teams_r] at h ⊢
  by_cases hk : conds.length = 0
  · rw [if_pos hk] at h ⊢
    obtain rfl : PyError.zeroDivisionError = e := by simpa using h
    rfl
  · rw [if_neg hk] at h ⊢
    by_cases hmod : num_teams % (conds.length : Int) ≠ 0
    · rw [if_pos hmod] at h ⊢
      obtain rfl : PyError.valueError (invalidConfigMsg num_teams conds.length)
          = e := by simpa using h
      rfl
    · rw [if_neg hmod] at h
      exact absurd h (by simp)

/-- Witness for C8: `num_teams = 5`, three conditions, a state-changing
random source; the state `7` is returned untouched. -/
theorem assign_teams_error_state_unchanged_witness :
    assign_teams_r (fun (g : Nat) l => (l, g + 1)) 7 5 ["A", "B", "C"] =
      (Except.error (PyError.valueError (invalidConfigMsg 5 3)), 7) :=
  assign_teams_error_state_unchanged (fun (g : Nat) l => (l, g + 1)) 7 5
    ["A", "B", "C"] (PyError.valueError (invalidConfigMsg 5 3)) rfl

/-- C9: with an empty conditions list, `num_teams % 0` raises
`ZeroDivisionError` — not the `InvalidConfiguration` `ValueError` — and no
assignment is produced, for every `num_teams`. -/
theorem assign_teams_empty_conditions (sh : List Nat → List Nat)
    (num_teams : Int) :
    assign_teams sh num_teams [] = Except.error PyError.zeroDivisionError :=
  rfl

/-- C10: for `k ≥ 1` conditions and any non-positive `num_teams` divisible by
`k` (in particular `0` and negative multiples), `assign_teams` raises nothing
and returns the empty mapping. -/
theorem assign_teams_nonpositive (sh : List Nat → List Nat)
    (conds : List String) (num_teams : Int) (hk : 1 ≤ conds.length)
    (hnp : num_teams ≤ 0) (hdvd : num_teams % (conds.length : Int) = 0) :
    assign_teams sh num_teams conds = Except.ok [] := by
  have hk0 : conds.length ≠ 0 := by omega
  have hB : (num_teams / (conds.length : Int)).toNat = 0 := by
    apply Int.toNat_of_nonpos
    calc num_teams / (conds.length : Int)
        ≤ 0 / (conds.length : Int) :=
          Int.ediv_le_ediv (by exact_mod_cast Nat.pos_of_ne_zero hk0) hnp
      _ = 0 := Int.zero_ediv _
  simp only [assign_teams, assign_teams_r, if_neg hk0,
    if_neg (not_not_intro hdvd), hB]
  rfl

/-- Witness for C10 at `num_teams = -4`, `conditions = ["A", "B"]`. -/
theorem assign_teams_nonpositive_witness :
    assign_teams id (-4) ["A", "B"] = Except.ok [] :=
  assign_teams_nonpositive id ["A", "B"] (-4) (by decide) (by decide)
    (by decide)

/-! ## Counting condition labels per position -/

theorem countAt_eq_count (a : List (String × List String)) (p : Nat)
    (c : String) :
    countAt a p c = (a.map (fun q => q.2.getD p "")).count c := by
  rw [countAt, List.count_eq_countP, List.countP_map]
  rfl

theorem countAt_assignPairs (c : List String) (ti : List Nat) (B : Nat)
    (p : Nat) (hp : p < c.length) (hnd : c.Nodup) (s : String) (hs : s ∈ c) :
    countAt (assignPairs c ti B) p s = B := by
  rw [countAt_eq_count]
  have hmapf : (assignPairs c ti B).map (fun q => q.2.getD p "")
      = ((assignPairs c ti B).map Prod.snd).map (fun v => v.getD p "") := by
    rw [List.map_map]
    rfl
  rw [hmapf, assignPairs_values, List.map_flatMap]
  have hblock :
      ((List.range c.length).map (fun r =>
        ((List.range c.length).map (fun j => (r + j) % c.length)).map
          (fun col => c.getD col ""))).map (fun v => v.getD p "")
      = ((List.range c.length).map (fun r => (r + p) % c.length)).map
          (fun col => c.getD col "") := by
    rw [List.map_map, List.map_map]
    apply List.map_congr_left
    intro r _
    simp only [Function.comp]
    rw [getD_map_lt (fun col => c.getD col "") (by simpa using hp) "" 0]
    congr 1
    rw [getD_map_lt (fun j => (r + j) % c.length) (by simpa using hp) 0 0]
    congr 1
    simp [List.getD_eq_getElem?_getD, List.getElem?_range hp]
  have hconst : (fun _ : Nat =>
        ((List.range c.length).map (fun r =>
          ((List.range c.length).map (fun j => (r + j) % c.length)).map
            (fun col => c.getD col ""))).map (fun v => v.getD p ""))
      = (fun _ : Nat =>
        ((List.range c.length).map (fun r => (r + p) % c.length)).map
          (fun col => c.getD col "")) := funext (fun _ => hblock)
  rw [hconst, count_flatMap_const]
  have hperm1 : (List.range c.length).map (fun r => (r + p) % c.length)
      = (List.range c.length).map (fun r => (p + r) % c.length) := by
    apply List.map_congr_left
    intro r _
    rw [Nat.add_comm]
  have hperm : ((List.range c.length).map
      (fun r => (r + p) % c.length)).Perm (List.range c.length) := by
    rw [hperm1]
    exact map_add_mod_perm_range c.length p
  rw [(hperm.map (fun col => c.getD col "")).count_eq,
    map_getD_range_length c "", List.count_eq_one_of_mem hnd hs,
    Nat.mul_one]

/-- C1 fails exactly as stated when condition labels repeat: with
`num_teams = 2 = 1 * 2` and `conditions = ["A", "A"]` (so `m = 1`), the label
`"A"` appears at position `0` in both teams' sequences, so the count is `2`,
not `m = 1`. -/
theorem balance_counterexample :
    (2 : Nat) = 1 * 2 ∧ ("A" ∈ (["A", "A"] : List String)) ∧
    assign_teams id ((2 : Nat) : Int) ["A", "A"] =
      Except.ok [("Team 1", ["A", "A"]), ("Team 2", ["A", "A"])] ∧
    countAt [("Team 1", ["A", "A"]), ("Team 2", ["A", "A"])] 0 "A" ≠ 1 := by
  refine ⟨rfl, by decide, rfl, by decide⟩

/-- C1 (amended): the balance invariant, for pairwise-distinct condition
labels — for every valid `(num_teams, conditions)` with
`num_teams = m * k`, `m ≥ 1`, `k = |conditions| ≥ 1` and distinct labels,
every condition occupies every position in exactly `m` teams' sequences. -/
theorem balance_invariant (sh : List Nat → List Nat) (conds : List String)
    (m : Nat) (hm : 0 < m) (hk : 1 ≤ conds.length) (hnd : conds.Nodup)
    (hsh : (sh (List.range (m * conds.length))).Perm
      (List.range (m * conds.length)))
    (p : Nat) (hp : p < conds.length) (c : String) (hc : c ∈ conds)
    (a : List (String × List String))
    (ha : assign_teams sh ((m * conds.length : Nat) : Int) conds =
      Except.ok a) :
    countAt a p c = m := by
  have hk0 : conds.length ≠ 0 := by omega
  have hdvd : (m * conds.length) % conds.length = 0 := Nat.mul_mod_left m _
  rw [assign_teams_ok_of_perm sh conds _ hk0 hdvd hsh] at ha
  obtain rfl := Except.ok.inj ha
  have hB : m * conds.length / conds.length = m :=
    Nat.mul_div_cancel m (Nat.pos_of_ne_zero hk0)
  rw [hB]
  exact countAt_assignPairs conds _ m p hp hnd c hc

/-- Witness for the amended C1: `m = 2`, `conditions = ["X", "Y"]`, identity
shuffle, position `1`, label `"Y"`. -/
theorem balance_invariant_witness :
    0 < 2 ∧ countAt [("Team 1", ["X", "Y"]), ("Team 2", ["Y", "X"]),
      ("Team 3", ["X", "Y"]), ("Team 4", ["Y", "X"])] 1 "Y" = 2 :=
  ⟨by decide, balance_invariant id ["X", "Y"] 2 (by decide) (by decide)
    (by decide) (by decide) 1 (by decide) "Y" (by decide) _ rfl⟩

/-- C4: on every valid input the assignment has exactly `num_teams` entries,
its keys are exactly `"Team 1" .. "Team num_teams"` each present once, and
every value is a length-`k` sequence of labels drawn from `conditions`. -/
theorem assign_teams_complete (sh : List Nat → List Nat)
    (conds : List String) (nn : Nat) (hk : 1 ≤ conds.length) (hpos : 0 < nn)
    (hdvd : nn % conds.length = 0)
    (hsh : (sh (List.range nn)).Perm (List.range nn))
    (a : List (String × List String))
    (ha : assign_teams sh (nn : Int) conds = Except.ok a) :
    a.length = nn ∧
    (a.map Prod.fst).Perm ((List.range nn).map teamName) ∧
    (a.map Prod.fst).Nodup ∧
    (∀ q ∈ a, q.2.length = conds.length ∧ ∀ s ∈ q.2, s ∈ conds) := by
  have hk0 : conds.length ≠ 0 := by omega
  rw [assign_teams_ok_of_perm sh conds nn hk0 hdvd hsh] at ha
  obtain rfl := Except.ok.inj ha
  have hlen : (sh (List.range nn)).length = (nn / conds.length) * conds.length := by
    rw [hsh.length_eq, List.length_range,
      Nat.div_mul_cancel (Nat.dvd_of_mod_eq_zero hdvd)]
  have hkeys := assignPairs_keys conds (sh (List.range nn))
    (nn / conds.length) hlen
  refine ⟨?_, ?_, ?_, ?_⟩
  · have hlk := congrArg List.length hkeys
    simp only [List.length_map] at hlk
    rw [hlk, hsh.length_eq, List.length_range]
  · rw [hkeys]
    exact hsh.map teamName
  · rw [hkeys]
    exact ((hsh.nodup_iff).mpr (List.nodup_range nn)).map teamName_injective
  · intro q hq
    simp only [assignPairs, List.mem_flatMap, List.mem_map,
      List.mem_range] at hq
    obtain ⟨b, hb, r, hr, rfl⟩ := hq
    refine ⟨by simp, ?_⟩
    intro s hs
    simp only [List.mem_map, List.mem_range] at hs
    obtain ⟨x, hx, rfl⟩ := hs
    obtain ⟨j, hj, rfl⟩ := hx
    have hlt : (r + j) % conds.length < conds.length :=
      Nat.mod_lt _ (by omega)
    rw [List.getD_eq_getElem?_getD, List.getElem?_eq_getElem hlt]
    simpa using List.getElem_mem hlt

/-- Witness for C4 at `num_teams = 2`, `conditions = ["A", "B"]`, identity
shuffle. -/
theorem assign_teams_complete_witness :
    ([("Team 1", ["A", "B"]), ("Team 2", ["B", "A"])].length = 2) ∧
    ([("Team 1", ["A", "B"]), ("Team 2", ["B", "A"])].map
      Prod.fst).Perm ((List.range 2).map teamName) ∧
    (([("Team 1", ["A", "B"]), ("Team 2", ["B", "A"])].map
      Prod.fst).Nodup) ∧
    (∀ q ∈ [("Team 1", ["A", "B"]), ("Team 2", ["B", "A"])],
      q.2.length = (["A", "B"] : List String).length ∧
        ∀ s ∈ q.2, s ∈ (["A", "B"] : List String)) :=
  assign_teams_complete id ["A", "B"] 2 (by decide) (by decide) (by decide)
    (by decide) [("Team 1", ["A", "B"]), ("Team 2", ["B", "A"])] rfl

/-- C5: on every valid input, for block `b` and row `r`, the pair whose key
names the team with original index `team_indices[b * k + r]` (plus one) and
whose value is row `r` of the square mapped through `conditions` is in the
assignment. -/
theorem assign_teams_block_row (sh : List Nat → List Nat)
    (conds : List String) (nn : Nat) (hk : 1 ≤ conds.length)
    (hdvd : nn % conds.length = 0)
    (hsh : (sh (List.range nn)).Perm (List.range nn))
    (b r : Nat) (hb : b < nn / conds.length) (hr : r < conds.length)
    (a : List (String × List String))
    (ha : assign_teams sh (nn : Int) conds = Except.ok a) :
    (teamName ((sh (List.range nn)).getD (b * conds.length + r) 0),
      ((latin_square conds.length).getD r []).map
        (fun col => conds.getD col "")) ∈ a := by
  have hk0 : conds.length ≠ 0 := by omega
  rw [assign_teams_ok_of_perm sh conds nn hk0 hdvd hsh] at ha
  obtain rfl := Except.ok.inj ha
  rw [latin_square_row conds.length r hr]
  simp only [assignPairs, List.mem_flatMap, List.mem_map, List.mem_range]
  exact ⟨b, hb, r, hr, rfl⟩

/-- Witness for C5 at `num_teams = 4`, `conditions = ["A", "B"]`, block `1`,
row `1`, identity shuffle. -/
theorem assign_teams_block_row_witness :
    (teamName ((id (List.range 4)).getD (1 * (["A", "B"] :
        List String).length + 1) 0),
      ((latin_square (["A", "B"] : List String).length).getD 1 []).map
        (fun col => (["A", "B"] : List String).getD col "")) ∈
      [("Team 1", ["A", "B"]), ("Team 2", ["B", "A"]),
       ("Team 3", ["A", "B"]), ("Team 4", ["B", "A"])] :=
  assign_teams_block_row id ["A", "B"] 4 (by decide) (by decide) (by decide)
    1 1 (by decide) (by decide)
    [("Team 1", ["A", "B"]), ("Team 2", ["B", "A"]),
     ("Team 3", ["A", "B"]), ("Team 4", ["B", "A"])] rfl

/-- C7: the shuffle only relabels which team gets which row; for any two
shuffle outcomes (both permutations of the index range) the two assignments
have the same multiset of condition sequences as values, so balance is
unaffected by the randomness. -/
theorem shuffle_independent_values (sh₁ sh₂ : List Nat → List Nat)
    (conds : List String) (nn : Nat) (hk : 1 ≤ conds.length)
    (hdvd : nn % conds.length = 0)
    (h₁ : (sh₁ (List.range nn)).Perm (List.range nn))
    (h₂ : (sh₂ (List.range nn)).Perm (List.range nn))
    (a₁ a₂ : List (String × List String))
    (ha₁ : assign_teams sh₁ (nn : Int) conds = Except.ok a₁)
    (ha₂ : assign_teams sh₂ (nn : Int) conds = Except.ok a₂) :
    (a₁.map Prod.snd).Perm (a₂.map Prod.snd) := by
  have hk0 : conds.length ≠ 0 := by omega
  rw [assign_teams_ok_of_perm sh₁ conds nn hk0 hdvd h₁] at ha₁
  rw [assign_teams_ok_of_perm sh₂ conds nn hk0 hdvd h₂] at ha₂
  obtain rfl := Except.ok.inj ha₁
  obtain rfl := Except.ok.inj ha₂
  rw [assignPairs_values, assignPairs_values]

/-- Witness for C7: identity shuffle versus reversal at `num_teams = 2`,
`conditions = ["A", "B"]`. -/
theorem shuffle_independent_values_witness :
    (([("Team 1", ["A", "B"]), ("Team 2", ["B", "A"])].map
      Prod.snd).Perm
     ([("Team 2", ["A", "B"]), ("Team 1", ["B", "A"])].map
      Prod.snd)) :=
  shuffle_independent_values id (fun l => l.reverse) ["A", "B"] 2
    (by decide) (by decide) (by decide) (by decide)
    [("Team 1", ["A", "B"]), ("Team 2", ["B", "A"])]
    [("Team 2", ["A", "B"]), ("Team 1", ["B", "A"])] rfl rfl

end LatinSquareAssigner
